import Mathlib

/-!
Verification development for the lottery-ticket OCR extraction core of
`app.py` (anoxiayu/lottery-bot).  The Python functions
`parse_lottery_text`, `evaluate_ocr_result`, `multi_strategy_ocr` and the
five `preprocess_*` strategies are shallowly embedded over `List Char`.
Python regular expressions are modelled by hand-written scanners that
reproduce `re.search` / `re.findall` / `re.finditer` / `re.sub` semantics
for the concrete patterns appearing in the source (leftmost match,
greedy quantifiers with the bounded backtracking those patterns need).
Whitespace is modelled as the ASCII whitespace characters, and `\w`
(needed for the word boundary `\b`) as ASCII alphanumerics, underscore and
CJK ideographs, which covers every character class exercised here.
-/

namespace LotteryBot

/-! ### Characters and elementary scanners -/

def isWs (c : Char) : Bool :=
  c = ' ' || c = '\t' || c = '\n' || c = '\r' || c = '\x0b' || c = '\x0c'

def isDigitCh (c : Char) : Bool :=
  '0' ≤ c && c ≤ '9'

def isAlphaCh (c : Char) : Bool :=
  ('a' ≤ c && c ≤ 'z') || ('A' ≤ c && c ≤ 'Z')

/-- Python `\w` on the characters this pipeline can see: ASCII letters,
digits, underscore and CJK unified ideographs. -/
def isWordCh (c : Char) : Bool :=
  isDigitCh c || isAlphaCh c || c = '_' || (0x4E00 ≤ c.toNat && c.toNat ≤ 0x9FFF)

def digitVal (c : Char) : Nat := c.toNat - 48

/-- Python `int` on a decimal digit string. -/
def strToNat (s : List Char) : Nat :=
  s.foldl (fun a c => a * 10 + digitVal c) 0

def chars (s : String) : List Char := s.toList

/-- `\s*`: drop leading whitespace. -/
def eatWs : List Char → List Char
  | [] => []
  | c :: t => if isWs c then eatWs t else c :: t

/-- `\s+`: at least one whitespace character, greedy. -/
def eatWs1 : List Char → Option (List Char)
  | [] => none
  | c :: t => if isWs c then some (eatWs t) else none

/-- `\d*` (greedy): returns the digits and the rest. -/
def eatDigits : List Char → List Char × List Char
  | [] => ([], [])
  | c :: t =>
    if isDigitCh c then
      let p := eatDigits t
      (c :: p.1, p.2)
    else ([], c :: t)

/-- `\d{n}`: exactly `n` digits (a further digit may follow, as in Python). -/
def eatExactDigits : Nat → List Char → Option (List Char × List Char)
  | 0, s => some ([], s)
  | _ + 1, [] => none
  | n + 1, c :: t =>
    if isDigitCh c then
      (eatExactDigits n t).map (fun p => (c :: p.1, p.2))
    else none

/-- A single literal character. -/
def lit (x : Char) : List Char → Option (List Char)
  | [] => none
  | c :: t => if c = x then some t else none

/-- `re.search`: try the matcher at every position, leftmost match wins. -/
def searchFirst (m : List Char → Option α) : List Char → Option α
  | [] => m []
  | s@(_ :: t) =>
    match m s with
    | some a => some a
    | none => searchFirst m t

/-- One step list of `re.sub(pattern, ' ', s)`: replace every
non-overlapping match (scanning left to right) by a single space.  The
matcher returns the rest of the string after the match.  Fuel-driven; a
fuel of `s.length` is enough because every match here consumes at least
one character. -/
def subAllAux (m : List Char → Option (List Char)) : Nat → List Char → List Char
  | 0, s => s
  | _ + 1, [] => []
  | fuel + 1, c :: t =>
    match m (c :: t) with
    | some rest => ' ' :: subAllAux m fuel rest
    | none => c :: subAllAux m fuel t

def runSub (m : List Char → Option (List Char)) (s : List Char) : List Char :=
  subAllAux m s.length s

/-- `re.findall` / `re.finditer`: all non-overlapping matches with their
captures, scanning left to right. -/
def findAllAux (m : List Char → Option (α × List Char)) :
    Nat → List Char → List α
  | 0, _ => []
  | _ + 1, [] => []
  | fuel + 1, c :: t =>
    match m (c :: t) with
    | some (a, rest) => a :: findAllAux m fuel rest
    | none => findAllAux m fuel t

def findAll (m : List Char → Option (α × List Char)) (s : List Char) : List α :=
  findAllAux m s.length s

/-! ### `' '.join(text.split())` -/

def replaceCR (s : List Char) : List Char :=
  s.map (fun c => if c = '\r' then '\n' else c)

def splitWsAux : List Char → List Char → List (List Char)
  | [], acc => if acc.isEmpty then [] else [acc.reverse]
  | c :: t, acc =>
    if isWs c then
      if acc.isEmpty then splitWsAux t [] else acc.reverse :: splitWsAux t []
    else splitWsAux t (c :: acc)

def splitWs (s : List Char) : List (List Char) := splitWsAux s []

/-- `' '.join(text.replace('\r', '\n').split())` from `parse_lottery_text`. -/
def singleLine (text : List Char) : List Char :=
  List.intercalate [' '] (splitWs (replaceCR text))

/-! ### Draw-term patterns (`term_patterns`, app.py lines 847–851) -/

/-- `第\s*(\d{5})\s*期` at the current position; returns the capture. -/
def mTerm1 (s : List Char) : Option (List Char) := do
  let s ← lit '第' s
  let (d, s) ← eatExactDigits 5 (eatWs s)
  let _ ← lit '期' (eatWs s)
  pure d

/-- `(\d{5})\s*期` at the current position. -/
def mTerm2 (s : List Char) : Option (List Char) := do
  let (d, s) ← eatExactDigits 5 s
  let _ ← lit '期' (eatWs s)
  pure d

/-- `期\s*号[:：]?\s*(\d{5})` at the current position. -/
def mTerm3 (s : List Char) : Option (List Char) := do
  let s ← lit '期' s
  let s ← lit '号' (eatWs s)
  let s := match s with
    | c :: t => if c = ':' || c = '：' then t else c :: t
    | [] => []
  let (d, _) ← eatExactDigits 5 (eatWs s)
  pure d

/-- The `for pattern in term_patterns: ... break` loop: first pattern with
a match wins. -/
def termExtract (s : List Char) : Option Nat :=
  match searchFirst mTerm1 s with
  | some d => some (strToNat d)
  | none =>
    match searchFirst mTerm2 s with
    | some d => some (strToNat d)
    | none => (searchFirst mTerm3 s).map strToNat

/-! ### Multi-draw patterns (`multi_patterns`, app.py lines 864–868) -/

/-- `(\d{1,2})\s*期\s*\d*\s*倍`; `\d{1,2}` prefers two digits. -/
def mMulti1 (s : List Char) : Option (List Char) :=
  (do
    let (d, s) ← eatExactDigits 2 s
    let s ← lit '期' (eatWs s)
    let (_, s) := eatDigits (eatWs s)
    let _ ← lit '倍' (eatWs s)
    pure d) <|>
  (do
    let (d, s) ← eatExactDigits 1 s
    let s ← lit '期' (eatWs s)
    let (_, s) := eatDigits (eatWs s)
    let _ ← lit '倍' (eatWs s)
    pure d)

/-- `连续\s*(\d{1,2})\s*期`. -/
def mMulti2 (s : List Char) : Option (List Char) := do
  let s ← lit '连' s
  let s ← lit '续' s
  let s := eatWs s
  (do
    let (d, s) ← eatExactDigits 2 s
    let _ ← lit '期' (eatWs s)
    pure d) <|>
  (do
    let (d, s) ← eatExactDigits 1 s
    let _ ← lit '期' (eatWs s)
    pure d)

/-- `(\d{1,2})\s*期购买`. -/
def mMulti3 (s : List Char) : Option (List Char) :=
  (do
    let (d, s) ← eatExactDigits 2 s
    let s ← lit '期' (eatWs s)
    let s ← lit '购' s
    let _ ← lit '买' s
    pure d) <|>
  (do
    let (d, s) ← eatExactDigits 1 s
    let s ← lit '期' (eatWs s)
    let s ← lit '购' s
    let _ ← lit '买' s
    pure d)

/-- The `for pattern in multi_patterns` loop: a match only `break`s when
its count lies in `[2, 30]`; otherwise the next pattern is tried. -/
def termCountGo (s : List Char) : List (List Char → Option (List Char)) → Nat
  | [] => 1
  | m :: rest =>
    match searchFirst m s with
    | some d =>
      let c := strToNat d
      if 2 ≤ c ∧ c ≤ 30 then c else termCountGo s rest
    | none => termCountGo s rest

def termCountExtract (s : List Char) : Nat :=
  termCountGo s [mMulti1, mMulti2, mMulti3]

/-! ### Direct ticket patterns (`lottery_patterns`, app.py lines 880–885) -/

/-- `[\+、]`. -/
def litPlus : List Char → Option (List Char)
  | [] => none
  | c :: t => if c = '+' || c = '、' then some t else none

/-- `(\d{2})(\s+(\d{2})){k-1}`: `k` captured two-digit groups separated
by `\s+`. -/
def eatGroupsWs : Nat → List Char → Option (List (List Char) × List Char)
  | 0, s => some ([], s)
  | 1, s => (eatExactDigits 2 s).map (fun p => ([p.1], p.2))
  | k + 2, s =>
    match eatExactDigits 2 s with
    | none => none
    | some (d, s1) =>
      match eatWs1 s1 with
      | none => none
      | some s2 => (eatGroupsWs (k + 1) s2).map (fun p => (d :: p.1, p.2))

/-- `(\d{2})\s+(\d{2})\s+(\d{2})\s+(\d{2})\s+(\d{2})\s*[\+、]\s*(\d{2})\s+(\d{2})`. -/
def mLot1 (s : List Char) : Option (List (List Char) × List Char) :=
  match eatGroupsWs 5 s with
  | none => none
  | some (g5, s1) =>
    match litPlus (eatWs s1) with
    | none => none
    | some s2 =>
      match eatGroupsWs 2 (eatWs s2) with
      | none => none
      | some (g2, s3) => some (g5 ++ g2, s3)

/-- `(\d{2})\s+(\d{2})\s+(\d{2})\s+(\d{2})\s+(\d{2})\s+(\d{2})\s+(\d{2})`. -/
def mLot2 (s : List Char) : Option (List (List Char) × List Char) :=
  eatGroupsWs 7 s

/-! ### Noise-stripping substitutions (app.py lines 914–935), in order -/

/-- Date separator class: dash, slash or dot. -/
def litDateSep : List Char → Option (List Char)
  | [] => none
  | c :: t => if c = '-' || c = '/' || c = '.' then some t else none

/-- Date pattern: `\d{4}`, separator, `\d{1,2}`, separator, `\d{1,2}`. -/
def cDate1 (s : List Char) : Option (List Char) := do
  let (_, s) ← eatExactDigits 4 s
  let s ← litDateSep s
  let s ← (do
    let (_, s) ← eatExactDigits 2 s
    litDateSep s) <|> (do
    let (_, s) ← eatExactDigits 1 s
    litDateSep s)
  let (_, s) ← eatExactDigits 2 s <|> eatExactDigits 1 s
  pure s

/-- `\d{4}年\d{1,2}月\d{1,2}日?`. -/
def cDate2 (s : List Char) : Option (List Char) := do
  let (_, s) ← eatExactDigits 4 s
  let s ← lit '年' s
  let s ← (do
    let (_, s) ← eatExactDigits 2 s
    lit '月' s) <|> (do
    let (_, s) ← eatExactDigits 1 s
    lit '月' s)
  let (_, s) ← eatExactDigits 2 s <|> eatExactDigits 1 s
  pure (match lit '日' s with
    | some r => r
    | none => s)

/-- `\d{1,2}月\d{1,2}日`. -/
def cDate3 (s : List Char) : Option (List Char) := do
  let s ← (do
    let (_, s) ← eatExactDigits 2 s
    lit '月' s) <|> (do
    let (_, s) ← eatExactDigits 1 s
    lit '月' s)
  (do
    let (_, s) ← eatExactDigits 2 s
    lit '日' s) <|> (do
    let (_, s) ← eatExactDigits 1 s
    lit '日' s)

/-- `第\d{5}期`. -/
def cTermFull (s : List Char) : Option (List Char) := do
  let s ← lit '第' s
  let (_, s) ← eatExactDigits 5 s
  lit '期' s

/-- `\d{5}期`. -/
def cTermBare (s : List Char) : Option (List Char) := do
  let (_, s) ← eatExactDigits 5 s
  lit '期' s

/-- `\d{1,2}:\d{2}(:\d{2})?`. -/
def cTime (s : List Char) : Option (List Char) := do
  let s ← (do
    let (_, s) ← eatExactDigits 2 s
    lit ':' s) <|> (do
    let (_, s) ← eatExactDigits 1 s
    lit ':' s)
  let (_, s) ← eatExactDigits 2 s
  pure (match (do
      let s ← lit ':' s
      let (_, s) ← eatExactDigits 2 s
      pure s : Option (List Char)) with
    | some r => r
    | none => s)

/-- `\d{4}-\d{4}`. -/
def cYearRange (s : List Char) : Option (List Char) := do
  let (_, s) ← eatExactDigits 4 s
  let s ← lit '-' s
  let (_, s) ← eatExactDigits 4 s
  pure s

/-- `20\d{2}年?`. -/
def cYear20 (s : List Char) : Option (List Char) := do
  let s ← lit '2' s
  let s ← lit '0' s
  let (_, s) ← eatExactDigits 2 s
  pure (match lit '年' s with
    | some r => r
    | none => s)

/-- `\d+\.?\d*元`. -/
def cYuan (s : List Char) : Option (List Char) := do
  let p := eatDigits s
  if p.1.isEmpty then none else
    let s := match lit '.' p.2 with
      | some r => r
      | none => p.2
    let q := eatDigits s
    lit '元' q.2

/-- `\d{8,}`. -/
def cLong8 (s : List Char) : Option (List Char) :=
  let p := eatDigits s
  if 8 ≤ p.1.length then some p.2 else none

/-- `\d{6,7}` (greedy: consumes at most 7 of the digits). -/
def cLong67 (s : List Char) : Option (List Char) :=
  let p := eatDigits s
  if 6 ≤ p.1.length then some (p.1.drop 7 ++ p.2) else none

/-- `[a-zA-Z]+`. -/
def cAlpha : List Char → Option (List Char)
  | [] => none
  | c :: t =>
    if isAlphaCh c then
      some ((c :: t).dropWhile isAlphaCh)
    else none

/-- `[\*\#\@\!\$\%\^\&]+`. -/
def isSpecialCh (c : Char) : Bool :=
  c = '*' || c = '#' || c = '@' || c = '!' || c = '$' || c = '%' || c = '^' || c = '&'

def cSpecial : List Char → Option (List Char)
  | [] => none
  | c :: t =>
    if isSpecialCh c then
      some ((c :: t).dropWhile isSpecialCh)
    else none

/-- The thirteen `re.sub(..., ' ', clean_text)` calls in source order.
A single fuel — the length of the incoming string — serves every pass,
since each replacement only shrinks the string. -/
def cleanText (s : List Char) : List Char :=
  [cDate1, cDate2, cDate3, cTermFull, cTermBare, cTime, cYearRange, cYear20,
   cYuan, cLong8, cLong67, cAlpha, cSpecial].foldl (fun t m => subAllAux m s.length t) s

/-! ### Tokenization (app.py lines 939–956) -/

/-- `(?:^|\s)(\d{2})(?=\s|$)` at one position; `first` tells whether the
`^` branch is available.  The lookahead does not consume. -/
def mSpacedAt (first : Bool) (s : List Char) : Option (List Char × List Char) :=
  let core : List Char → Option (List Char × List Char) := fun u => do
    let (d, r) ← eatExactDigits 2 u
    match r with
    | [] => pure (d, r)
    | c :: _ => if isWs c then pure (d, r) else none
  (if first then core s else none) <|>
    (match s with
     | c :: t => if isWs c then core t else none
     | [] => none)

def findSpacedAux : Nat → Bool → List Char → List (List Char)
  | 0, _, _ => []
  | _ + 1, _, [] => []
  | fuel + 1, first, c :: t =>
    match mSpacedAt first (c :: t) with
    | some (d, rest) => d :: findSpacedAux fuel false rest
    | none => findSpacedAux fuel false t

/-- `re.findall(r'(?:^|\s)(\d{2})(?=\s|$)', clean_text)`. -/
def findSpaced (s : List Char) : List (List Char) :=
  findSpacedAux s.length true s

/-- `re.findall(r'\d{1,2}', clean_text)`: greedy two-digit chunks. -/
def mD12 (s : List Char) : Option (List Char × List Char) :=
  eatExactDigits 2 s <|> eatExactDigits 1 s

def findAllD12 (s : List Char) : List (List Char) :=
  findAll mD12 s

/-! ### Tickets -/

structure Ticket where
  reds : List (List Char)
  blues : List (List Char)
deriving DecidableEq, Repr

structure ParseResult where
  tickets : List Ticket
  startTerm : Option Nat
  termCount : Nat
  needConfirm : Bool
deriving DecidableEq, Repr

/-- Python `str(n)` for a natural number (decimal digits). -/
def natCharsAux : Nat → Nat → List Char
  | 0, _ => []
  | fuel + 1, n =>
    if n < 10 then [Char.ofNat (48 + n)]
    else natCharsAux fuel (n / 10) ++ [Char.ofNat (48 + n % 10)]

def natChars (n : Nat) : List Char := natCharsAux (n + 1) n

/-- Python `str.zfill(2)`. -/
def zfill2 (s : List Char) : List Char :=
  if 2 ≤ s.length then s
  else if s.length = 1 then '0' :: s
  else ['0', '0']

/-- `str(n).zfill(2)`. -/
def pad2 (n : Nat) : List Char := zfill2 (natChars n)

/-- `{'reds': [str(n).zfill(2) for n in sorted(reds)], 'blues': ...}`. -/
def mkTicket (reds blues : List Nat) : Ticket :=
  ⟨(reds.insertionSort (· ≤ ·)).map pad2, (blues.insertionSort (· ≤ ·)).map pad2⟩

/-- `all(1 <= n <= 35 for n in reds) and len(set(reds)) == 5`. -/
def redsOk (reds : List Nat) : Bool :=
  reds.all (fun n => 1 ≤ n && n ≤ 35) && reds.dedup.length = 5

/-- `all(1 <= n <= 12 for n in blues) and len(set(blues)) == 2`. -/
def bluesOk (blues : List Nat) : Bool :=
  blues.all (fun n => 1 ≤ n && n ≤ 12) && blues.dedup.length = 2

/-- `if ticket not in result['tickets']: result['tickets'].append(ticket)`. -/
def dedupAppend (acc : List Ticket) (t : Ticket) : List Ticket :=
  if t ∈ acc then acc else acc ++ [t]

/-- The candidate built from seven captured groups (or a window of seven
tokens): `reds = nums[:5]`, `blues = nums[5:7]`, both as integers. -/
def windowTicket (g : List (List Char)) : Ticket :=
  mkTicket ((g.take 5).map strToNat) (((g.drop 5).take 2).map strToNat)

/-- Body of the direct-tier match loop: validate the seven captured
groups and dedup-append the resulting candidate. -/
def dpStep (acc : List Ticket) (g : List (List Char)) : List Ticket :=
  if redsOk ((g.take 5).map strToNat) && bluesOk (((g.drop 5).take 2).map strToNat) then
    dedupAppend acc (windowTicket g)
  else acc

/-- The two `re.finditer` loops of the direct structured tier
(app.py lines 887–906). -/
def directPass (s : List Char) : List Ticket :=
  (findAll mLot1 s ++ findAll mLot2 s).foldl dpStep []

/-! ### Sliding window tier (app.py lines 958–979) -/

/-- The `while i <= len(all_nums) - 7` loop: a window of width 7 is
accepted when the first five values are in `[1,35]` with five distinct
values and the last two are in `[1,12]` and distinct; on acceptance the
index advances by 7 (after a dedup-append), otherwise by 1.  Fuel-driven
(each iteration consumes at least one token, so `toks.length` is enough);
the fuel is irrelevant above that bound. -/
def slidingWindowAux : Nat → List (List Char) → List Ticket → List Ticket
  | 0, _, acc => acc
  | fuel + 1, toks, acc =>
    if toks.length < 7 then acc
    else
      if redsOk ((toks.take 5).map strToNat) &&
          bluesOk (((toks.drop 5).take 2).map strToNat) then
        slidingWindowAux fuel (toks.drop 7) (dedupAppend acc (windowTicket toks))
      else
        slidingWindowAux fuel (toks.drop 1) acc

def slidingWindow (toks : List (List Char)) (acc : List Ticket) : List Ticket :=
  slidingWindowAux toks.length toks acc

/-- The blue-candidate scan of the loosest tier (app.py lines 1012–1017):
walk the remaining tokens collecting distinct values in `[1,12]`, stopping
after two. -/
def scanBlues : List (List Char) → List Nat → List Nat
  | [], acc => acc
  | n :: t, acc =>
    if 1 ≤ strToNat n && strToNat n ≤ 12 && !acc.contains (strToNat n) then
      if 2 ≤ (acc ++ [strToNat n]).length then acc ++ [strToNat n]
      else scanBlues t (acc ++ [strToNat n])
    else scanBlues t acc

/-- Tiers three and four (`宽松匹配` / `最宽松匹配`, app.py lines 984–1030),
reached when no earlier tier produced a ticket; also applies the final
`if not result['tickets']: needConfirm = True`. -/
def looseTiers (nums : List (List Char)) (startTerm : Option Nat)
    (tCount : Nat) (needC : Bool) : ParseResult :=
  if 7 ≤ nums.length then
    if ((nums.take 5).map strToNat).all (fun n => 1 ≤ n && n ≤ 35) &&
        (((nums.drop 5).take 2).map strToNat).all (fun n => 1 ≤ n && n ≤ 12) then
      ⟨[windowTicket nums], startTerm, tCount, true⟩
    else loosestTier nums startTerm tCount needC
  else loosestTier nums startTerm tCount needC
where
  loosestTier (nums : List (List Char)) (startTerm : Option Nat)
      (tCount : Nat) (_needC : Bool) : ParseResult :=
    if 5 ≤ nums.length then
      if ((nums.take 5).map strToNat).all (fun n => 1 ≤ n && n ≤ 35) then
        if 1 ≤ (scanBlues (nums.drop 5) []).length then
          ⟨[mkTicket ((nums.take 5).map strToNat) (scanBlues (nums.drop 5) [])],
            startTerm, tCount, true⟩
        else ⟨[], startTerm, tCount, true⟩
      else ⟨[], startTerm, tCount, true⟩
    else ⟨[], startTerm, tCount, true⟩

/-- The token list after noise stripping, tokenization, the `[1,35]`
range filter and `zfill(2)` (`all_nums` at app.py line 955). -/
def validNums (text : List Char) : List (List Char) :=
  let clean := cleanText (singleLine text)
  let spaced := findSpaced clean
  let raw := if 7 ≤ spaced.length then spaced else findAllD12 clean
  (raw.filter fun n => 1 ≤ strToNat n && strToNat n ≤ 35).map zfill2

/-- `parse_lottery_text` (app.py lines 832–1032). -/
def parse_lottery_text (text : List Char) : ParseResult :=
  if directPass (singleLine text) ≠ [] then
    ⟨directPass (singleLine text), termExtract (singleLine text),
      termCountExtract (singleLine text), (termExtract (singleLine text)).isNone⟩
  else if slidingWindow (validNums text) [] ≠ [] then
    ⟨slidingWindow (validNums text) [], termExtract (singleLine text),
      termCountExtract (singleLine text), (termExtract (singleLine text)).isNone⟩
  else
    looseTiers (validNums text) (termExtract (singleLine text))
      (termCountExtract (singleLine text)) ((termExtract (singleLine text)).isNone)

/-! ### `evaluate_ocr_result` (app.py lines 166–207) -/

/-- One raw OCR output item, as the Python code probes it:
`short` stands for an item of length < 2 (no usable text),
`line` for length 2 (text, no confidence),
`full` for length ≥ 3 (text and confidence).  Confidences are modelled
as rationals. -/
inductive OcrItem where
  | short : OcrItem
  | line (text : List Char) : OcrItem
  | full (text : List Char) (conf : ℚ) : OcrItem
deriving DecidableEq, Repr

def itemText : OcrItem → Option (List Char)
  | .short => none
  | .line t => some t
  | .full t _ => some t

def itemConf : OcrItem → Option ℚ
  | .full _ c => some c
  | _ => none

/-- `' '.join(text_lines)` over the items of length ≥ 2. -/
def mergeText (data : List OcrItem) : List Char :=
  List.intercalate [' '] (data.filterMap itemText)

/-- `\d{2}\s+\d{2}\s+\d{2}\s+\d{2}\s+\d{2}\s*[\+\s]\s*\d{2}\s+\d{2}`
(the `lottery_pattern` of the scorer).  The separator `\s*[\+\s]\s*` is
matched deterministically: skip whitespace; a `+` may follow (then more
whitespace), otherwise at least one whitespace character must have been
consumed. -/
def eatScoreSep (s : List Char) : Option (List Char) :=
  let w := s.takeWhile isWs
  let r := s.dropWhile isWs
  match r with
  | '+' :: t => some (eatWs t)
  | _ => if w.isEmpty then none else some r

def mScore30 (s : List Char) : Option (List Char) :=
  match eatGroupsWs 5 s with
  | none => none
  | some (_, s1) =>
    match eatScoreSep s1 with
    | none => none
    | some s2 =>
      match eatGroupsWs 2 s2 with
      | none => none
      | some (_, s3) => some s3

/-- `re.findall(r'\b\d{2}\b', text)`: the `Bool` argument records whether
the previous character was a word character. -/
def findB2Aux : Nat → Bool → List Char → List (List Char)
  | 0, _, _ => []
  | _ + 1, _, [] => []
  | _ + 1, _, [_] => []
  | fuel + 1, prevW, c :: d :: t =>
    if !prevW && isDigitCh c && isDigitCh d &&
        (match t with
         | [] => true
         | e :: _ => !isWordCh e) then
      [c, d] :: findB2Aux fuel true t
    else
      findB2Aux fuel (isWordCh c) (d :: t)

def findB2 (s : List Char) : List (List Char) :=
  findB2Aux s.length false s

/-- Substring test (`'大乐透' in text`). -/
def startsWithL : List Char → List Char → Bool
  | [], _ => true
  | _ :: _, [] => false
  | p :: ps, c :: cs => p = c && startsWithL ps cs

def containsSub (pat : List Char) : List Char → Bool
  | [] => pat.isEmpty
  | c :: t => startsWithL pat (c :: t) || containsSub pat t

/-- Python `int()` on a rational: truncation toward zero. -/
def pyInt (q : ℚ) : ℤ := q.num.tdiv q.den

/-- `evaluate_ocr_result(ocr_data, text)`. -/
def evaluate_ocr_result (data : List OcrItem) (text : List Char) : ℤ :=
  if data.isEmpty || text.isEmpty then 0
  else
    let s1 : ℤ := (data.length : ℤ) * 2
    let s2 : ℤ := if (searchFirst mTerm1 text).isSome then 20 else 0
    let s3 : ℤ := if (searchFirst mScore30 text).isSome then 30 else 0
    let validNs := (findB2 text).filter fun n => 1 ≤ strToNat n && strToNat n ≤ 35
    let s4a : ℤ := if 7 ≤ validNs.length then 15 else 0
    let s4b : ℤ := if 14 ≤ validNs.length then 10 else 0
    let confs := data.filterMap itemConf
    let s5 : ℤ :=
      if confs.isEmpty then 0
      else pyInt (confs.sum / (confs.length : ℚ) * 20)
    let s6 : ℤ :=
      if containsSub (chars "大乐透") text || containsSub (chars "超级大乐透") text then 5
      else 0
    s1 + s2 + s3 + s4a + s4b + s5 + s6

/-! ### `multi_strategy_ocr` (app.py lines 210–270) -/

def strategyNames : List (List Char) :=
  [chars "标准处理", chars "高对比度", chars "二值化", chars "降噪处理", chars "自适应阈值"]

/-- The running best of the strategy loop. -/
structure BestState where
  result : Option (List OcrItem)
  score : ℤ
  name : List Char
  text : List Char
deriving Repr

/-- One iteration of the strategy loop: a strategy whose recognition
failed (exception or `None` result) is skipped; otherwise the merged
text is scored and the best is replaced only on a strictly higher
score. -/
def msStep (st : BestState) (nr : List Char × Option (List OcrItem)) : BestState :=
  match nr.2 with
  | none => st
  | some data =>
    let text := mergeText data
    let score := evaluate_ocr_result data text
    if st.score < score then ⟨some data, score, nr.1, text⟩ else st

/-- `multi_strategy_ocr`, abstracted over the per-strategy recognition
outcomes (`none` models "no result or exception"). -/
def multi_strategy_ocr (results : List (Option (List OcrItem))) : BestState :=
  (strategyNames.zip results).foldl msStep ⟨none, -1, chars "无", []⟩

/-- Python `str.strip()`. -/
def stripWs (s : List Char) : List Char :=
  ((s.dropWhile isWs).reverse.dropWhile isWs).reverse

/-- The `ocr_data is None or not text.strip()` check of `ocr_recognize`
(app.py line 795): the request answers with the explicit
"未能识别图片内容" failure (NoTextDetected). -/
def noTextDetected (results : List (Option (List OcrItem))) : Bool :=
  (multi_strategy_ocr results).result.isNone ||
    (stripWs (multi_strategy_ocr results).text).isEmpty

/-! ### Preprocessing strategies (app.py lines 82–163)

Each pure image transform used by a strategy is an opaque fallible step
`Img → Except E Img`; the `try/except` block catches any failure and
returns the current value of the Python variable `image` — which is the
original input only as long as `image` has not yet been reassigned. -/

section Preprocess

variable {Img E : Type}

/-- `preprocess_standard`: contrast ×1.5, then sharpen. -/
def preprocess_standard (contrast sharpen : Img → Except E Img) (image : Img) : Img :=
  match contrast image with
  | .error _ => image
  | .ok i1 =>
    match sharpen i1 with
    | .error _ => i1
    | .ok i2 => i2

/-- `preprocess_high_contrast`: contrast ×2.2, brightness ×1.1, sharpen
twice. -/
def preprocess_high_contrast (contrast brightness sharpen : Img → Except E Img)
    (image : Img) : Img :=
  match contrast image with
  | .error _ => image
  | .ok i1 =>
    match brightness i1 with
    | .error _ => i1
    | .ok i2 =>
      match sharpen i2 with
      | .error _ => i2
      | .ok i3 =>
        match sharpen i3 with
        | .error _ => i3
        | .ok i4 => i4

/-- The transform chain of `preprocess_binarize` (grayscale, Otsu
threshold, back to RGB); all intermediate results are bound to fresh
Python variables. -/
def binarizeChain (toGray otsu toRGB : Img → Except E Img) (image : Img) :
    Except E Img := do
  let g ← toGray image
  let b ← otsu g
  toRGB b

/-- `preprocess_binarize`: the variable `image` is never reassigned, so
any failure returns the input unchanged. -/
def preprocess_binarize (toGray otsu toRGB : Img → Except E Img) (image : Img) : Img :=
  match binarizeChain toGray otsu toRGB image with
  | .error _ => image
  | .ok r => r

/-- `preprocess_denoise`: non-local-means denoise (bound back to
`image`), contrast ×1.6, sharpen. -/
def preprocess_denoise (denoise contrast sharpen : Img → Except E Img)
    (image : Img) : Img :=
  match denoise image with
  | .error _ => image
  | .ok i1 =>
    match contrast i1 with
    | .error _ => i1
    | .ok i2 =>
      match sharpen i2 with
      | .error _ => i2
      | .ok i3 => i3

/-- The transform chain of `preprocess_adaptive` (grayscale, adaptive
Gaussian threshold, back to RGB). -/
def adaptiveChain (toGray adaptive toRGB : Img → Except E Img) (image : Img) :
    Except E Img := do
  let g ← toGray image
  let a ← adaptive g
  toRGB a

/-- `preprocess_adaptive`: `image` is never reassigned, so any failure
returns the input unchanged. -/
def preprocess_adaptive (toGray adaptive toRGB : Img → Except E Img) (image : Img) : Img :=
  match adaptiveChain toGray adaptive toRGB image with
  | .error _ => image
  | .ok r => r

end Preprocess

/-! ### Spec-side definitions

These follow the wording of the specification, to be compared with the
code-derived definitions above. -/

/-- §3 TicketCandidate invariant: exactly 5 pairwise-distinct red numbers
in `[1,35]` and exactly 2 pairwise-distinct blue numbers in `[1,12]`. -/
def validTicket (t : Ticket) : Prop :=
  t.reds.length = 5 ∧ t.reds.Nodup ∧
    (∀ s ∈ t.reds, 1 ≤ strToNat s ∧ strToNat s ≤ 35) ∧
  t.blues.length = 2 ∧ t.blues.Nodup ∧
    (∀ s ∈ t.blues, 1 ≤ strToNat s ∧ strToNat s ≤ 12)

instance (t : Ticket) : Decidable (validTicket t) := by
  unfold validTicket; infer_instance

/-- Canonical emission form: a list of two-character zero-padded decimal
renderings of an ascending list of numbers below 100. -/
def canonicalL (l : List (List Char)) : Prop :=
  ∃ ns : List Nat, List.Sorted (· ≤ ·) ns ∧ (∀ n ∈ ns, n < 100) ∧ l = ns.map pad2

/-- §4.7(d), spec wording: a window of width 7 is accepted when its first
5 tokens are unique and in `[1,35]` and its last 2 are unique and in
`[1,12]`. -/
def acceptSpec (toks : List (List Char)) : Prop :=
  let reds := (toks.take 5).map strToNat
  let blues := ((toks.drop 5).take 2).map strToNat
  reds.Nodup ∧ (∀ n ∈ reds, 1 ≤ n ∧ n ≤ 35) ∧
    blues.Nodup ∧ (∀ n ∈ blues, 1 ≤ n ∧ n ≤ 12)

instance (toks : List (List Char)) : Decidable (acceptSpec toks) := by
  unfold acceptSpec; infer_instance

/-- Two candidates resolving to the same red set and the same blue set. -/
def sameSets (a b : Ticket) : Prop :=
  (a.reds.map strToNat).toFinset = (b.reds.map strToNat).toFinset ∧
    (a.blues.map strToNat).toFinset = (b.blues.map strToNat).toFinset

/-- §4.5, spec wording of the score: the sum of the listed components,
with `floor` for the confidence bonus; 0 when there are no fragments or
the merged text is empty. -/
def evalSpecScore (data : List OcrItem) (text : List Char) : ℤ :=
  if data = [] ∨ text = [] then 0
  else
    let validNs := (findB2 text).filter fun n => 1 ≤ strToNat n && strToNat n ≤ 35
    let confs := data.filterMap itemConf
    2 * (data.length : ℤ)
      + (if (searchFirst mTerm1 text).isSome then 20 else 0)
      + (if (searchFirst mScore30 text).isSome then 30 else 0)
      + (if 7 ≤ validNs.length then 15 else 0)
      + (if 14 ≤ validNs.length then 10 else 0)
      + (if confs = [] then 0 else Int.floor ((20 : ℚ) * (confs.sum / confs.length)))
      + (if containsSub (chars "大乐透") text || containsSub (chars "超级大乐透") text then 5
         else 0)

/-- Candidates of the shape emitted by the direct tier and the sliding
window: seven validated groups rendered through `mkTicket`. -/
def tierForm (t : Ticket) : Prop :=
  ∃ g : List (List Char),
    redsOk ((g.take 5).map strToNat) = true ∧
    bluesOk (((g.drop 5).take 2).map strToNat) = true ∧
    t = windowTicket g

/-! Concrete recognition outputs used to exercise the strategy scorer:
their scores under `evaluate_ocr_result` are 12, 47, 30 and 5. -/

def itemsScore12 : List OcrItem := List.replicate 6 (.line (chars "x"))

def itemsScore47 : List OcrItem :=
  [.line (chars "第12345期"), .line (chars "01,02,03,04,05,06,07"),
   .line (chars "x"), .line (chars "x"), .line (chars "x"), .line (chars "x")]

def itemsScore30 : List OcrItem :=
  [.line (chars "第12345期"), .line (chars "x"), .line (chars "x"),
   .line (chars "x"), .line (chars "x")]

def itemsScore5 : List OcrItem := [.full (chars "x") (3/20)]

/-! ### Helper lemmas -/

theorem strToNat_pad2 : ∀ n < 100, strToNat (pad2 n) = n := by decide

theorem pad2_length : ∀ n < 100, (pad2 n).length = 2 := by decide

theorem map_strToNat_pad2 {l : List Nat} (h : ∀ n ∈ l, n < 100) :
    (l.map pad2).map strToNat = l := by
  induction l with
  | nil => rfl
  | cons a t ih =>
    simp only [List.map_cons, List.cons.injEq]
    exact ⟨strToNat_pad2 a (h a (by simp)), ih fun n hn => h n (by simp [hn])⟩

theorem strToNat_zfill2 (s : List Char) : strToNat (zfill2 s) = strToNat s := by
  unfold zfill2
  split
  · rfl
  · split
    · rfl
    · next h1 h2 =>
      have : s.length = 0 := by omega
      rw [List.length_eq_zero] at this
      subst this
      rfl

theorem mem_dedupAppend {acc : List Ticket} {x t : Ticket}
    (h : t ∈ dedupAppend acc x) : t ∈ acc ∨ t = x := by
  unfold dedupAppend at h
  split at h
  · exact Or.inl h
  · rcases List.mem_append.mp h with h | h
    · exact Or.inl h
    · exact Or.inr (List.mem_singleton.mp h)

theorem nodup_dedupAppend {acc : List Ticket} {x : Ticket} (h : acc.Nodup) :
    (dedupAppend acc x).Nodup := by
  unfold dedupAppend
  split
  · exact h
  · next hx =>
    exact List.Nodup.append h (List.nodup_singleton x)
      (fun a ha hax => hx ((List.mem_singleton.mp hax) ▸ ha))

theorem redsOk_range {reds : List Nat} (h : redsOk reds = true) :
    ∀ n ∈ reds, 1 ≤ n ∧ n ≤ 35 := by
  simp only [redsOk, Bool.and_eq_true, List.all_eq_true, Bool.and_eq_true,
    decide_eq_true_eq] at h
  exact fun n hn => h.1 n hn

theorem bluesOk_range {blues : List Nat} (h : bluesOk blues = true) :
    ∀ n ∈ blues, 1 ≤ n ∧ n ≤ 12 := by
  simp only [bluesOk, Bool.and_eq_true, List.all_eq_true, Bool.and_eq_true,
    decide_eq_true_eq] at h
  exact fun n hn => h.1 n hn

theorem redsOk_nodup_length {reds : List Nat} (h : redsOk reds = true)
    (hle : reds.length ≤ 5) : reds.length = 5 ∧ reds.Nodup := by
  simp only [redsOk, Bool.and_eq_true, decide_eq_true_eq] at h
  have hd := (List.dedup_sublist reds).length_le
  have h5 : reds.length = 5 := by omega
  have : reds.dedup = reds := (List.dedup_sublist reds).eq_of_length (by omega)
  exact ⟨h5, List.dedup_eq_self.mp this⟩

theorem bluesOk_nodup_length {blues : List Nat} (h : bluesOk blues = true)
    (hle : blues.length ≤ 2) : blues.length = 2 ∧ blues.Nodup := by
  simp only [bluesOk, Bool.and_eq_true, decide_eq_true_eq] at h
  have hd := (List.dedup_sublist blues).length_le
  have h2 : blues.length = 2 := by omega
  have : blues.dedup = blues := (List.dedup_sublist blues).eq_of_length (by omega)
  exact ⟨h2, List.dedup_eq_self.mp this⟩

theorem mem_insertionSort_nat {l : List Nat} {n : Nat}
    (h : n ∈ l.insertionSort (· ≤ ·)) : n ∈ l :=
  (List.perm_insertionSort (· ≤ ·) l).mem_iff.mp h

theorem canonicalL_sorted_map {l : List Nat} (h : ∀ n ∈ l, n < 100) :
    canonicalL ((l.insertionSort (· ≤ ·)).map pad2) :=
  ⟨l.insertionSort (· ≤ ·), List.sorted_insertionSort (· ≤ ·) l,
    fun n hn => h n (mem_insertionSort_nat hn), rfl⟩

/-- Both components of a `mkTicket` are canonical as soon as the
underlying numbers are below 100. -/
theorem canonical_mkTicket {reds blues : List Nat}
    (hr : ∀ n ∈ reds, n < 100) (hb : ∀ n ∈ blues, n < 100) :
    canonicalL (mkTicket reds blues).reds ∧ canonicalL (mkTicket reds blues).blues :=
  ⟨canonicalL_sorted_map hr, canonicalL_sorted_map hb⟩

theorem nodup_sorted_map_pad2 {l : List Nat} (hnd : l.Nodup) (h : ∀ n ∈ l, n < 100) :
    ((l.insertionSort (· ≤ ·)).map pad2).Nodup := by
  have hnd' : (l.insertionSort (· ≤ ·)).Nodup :=
    ((List.perm_insertionSort (· ≤ ·) l).nodup_iff).mpr hnd
  refine List.Nodup.map_on ?_ hnd'
  intro x hx y hy hxy
  have hx' : x < 100 := h x (mem_insertionSort_nat hx)
  have hy' : y < 100 := h y (mem_insertionSort_nat hy)
  calc x = strToNat (pad2 x) := (strToNat_pad2 x hx').symm
    _ = strToNat (pad2 y) := by rw [hxy]
    _ = y := strToNat_pad2 y hy'

/-- A `mkTicket` from validated groups satisfies the §3 invariant. -/
theorem validTicket_mkTicket {reds blues : List Nat}
    (hr : redsOk reds = true) (hb : bluesOk blues = true)
    (hr5 : reds.length ≤ 5) (hb2 : blues.length ≤ 2) :
    validTicket (mkTicket reds blues) := by
  obtain ⟨hrl, hrnd⟩ := redsOk_nodup_length hr hr5
  obtain ⟨hbl, hbnd⟩ := bluesOk_nodup_length hb hb2
  have hrr := redsOk_range hr
  have hbr := bluesOk_range hb
  refine ⟨?_, ?_, ?_, ?_, ?_, ?_⟩
  · rw [mkTicket, List.length_map, (List.perm_insertionSort (· ≤ ·) reds).length_eq, hrl]
  · exact nodup_sorted_map_pad2 hrnd fun n hn => by have := hrr n hn; omega
  · intro s hs
    rw [mkTicket] at hs
    obtain ⟨n, hn, rfl⟩ := List.mem_map.mp hs
    have hn' := hrr n (mem_insertionSort_nat hn)
    rw [strToNat_pad2 n (by omega)]
    exact hn'
  · rw [mkTicket, List.length_map, (List.perm_insertionSort (· ≤ ·) blues).length_eq, hbl]
  · exact nodup_sorted_map_pad2 hbnd fun n hn => by have := hbr n hn; omega
  · intro s hs
    rw [mkTicket] at hs
    obtain ⟨n, hn, rfl⟩ := List.mem_map.mp hs
    have hn' := hbr n (mem_insertionSort_nat hn)
    rw [strToNat_pad2 n (by omega)]
    exact hn'

theorem tierForm_valid {t : Ticket} (h : tierForm t) : validTicket t := by
  obtain ⟨g, hr, hb, rfl⟩ := h
  exact validTicket_mkTicket hr hb
    (by simp)
    (by simp)

theorem tierForm_canonical {t : Ticket} (h : tierForm t) :
    canonicalL t.reds ∧ canonicalL t.blues := by
  obtain ⟨g, hr, hb, rfl⟩ := h
  exact canonical_mkTicket
    (fun n hn => by have := redsOk_range hr n hn; omega)
    (fun n hn => by have := bluesOk_range hb n hn; omega)

/-! Direct tier -/

theorem foldl_dpStep_mem {t : Ticket} :
    ∀ (gs : List (List (List Char))) (acc : List Ticket),
      t ∈ gs.foldl dpStep acc → t ∈ acc ∨ tierForm t := by
  intro gs
  induction gs with
  | nil => exact fun acc h => Or.inl h
  | cons g gs ih =>
    intro acc h
    rw [List.foldl_cons] at h
    rcases ih (dpStep acc g) h with h' | h'
    · simp only [dpStep] at h'
      split at h'
      · next hok =>
        rcases mem_dedupAppend h' with h'' | h''
        · exact Or.inl h''
        · refine Or.inr ⟨g, ?_, ?_, h''⟩
          · exact (Bool.and_eq_true _ _ ▸ hok).1
          · exact (Bool.and_eq_true _ _ ▸ hok).2
      · exact Or.inl h'
    · exact Or.inr h'

theorem directPass_mem {s : List Char} {t : Ticket} (h : t ∈ directPass s) :
    tierForm t := by
  rcases foldl_dpStep_mem _ _ h with h' | h'
  · cases h'
  · exact h'

/-! Sliding window -/

theorem slidingWindowAux_lt7 {fuel : Nat} {toks : List (List Char)}
    {acc : List Ticket} (h : toks.length < 7) :
    slidingWindowAux fuel toks acc = acc := by
  cases fuel with
  | zero => rfl
  | succ f => simp only [slidingWindowAux, if_pos h]

theorem slidingWindow_lt7 {toks : List (List Char)} {acc : List Ticket}
    (h : toks.length < 7) : slidingWindow toks acc = acc :=
  slidingWindowAux_lt7 h

/-- The fuel is irrelevant as soon as it covers the token count. -/
theorem slidingWindowAux_fuel_eq :
    ∀ (f1 f2 : Nat) (toks : List (List Char)) (acc : List Ticket),
      toks.length ≤ f1 → toks.length ≤ f2 →
      slidingWindowAux f1 toks acc = slidingWindowAux f2 toks acc := by
  intro f1
  induction f1 with
  | zero =>
    intro f2 toks acc h1 _
    have h7 : toks.length < 7 := by omega
    rw [slidingWindowAux_lt7 h7, slidingWindowAux_lt7 h7]
  | succ f ih =>
    intro f2 toks acc h1 h2
    by_cases h7 : toks.length < 7
    · rw [slidingWindowAux_lt7 h7, slidingWindowAux_lt7 h7]
    · cases f2 with
      | zero => omega
      | succ g =>
        simp only [slidingWindowAux, if_neg h7]
        split
        · exact ih _ _ _ (by simp only [List.length_drop]; omega)
            (by simp only [List.length_drop]; omega)
        · exact ih _ _ _ (by simp only [List.length_drop]; omega)
            (by simp only [List.length_drop]; omega)

theorem slidingWindowAux_mem {t : Ticket} :
    ∀ (fuel : Nat) (toks : List (List Char)) (acc : List Ticket),
      t ∈ slidingWindowAux fuel toks acc → t ∈ acc ∨ tierForm t := by
  intro fuel
  induction fuel with
  | zero => exact fun toks acc h => Or.inl h
  | succ f ih =>
    intro toks acc h
    rw [slidingWindowAux] at h
    split at h
    · exact Or.inl h
    · split at h
      · next hok =>
        rcases ih _ _ h with h' | h'
        · rcases mem_dedupAppend h' with h'' | h''
          · exact Or.inl h''
          · exact Or.inr ⟨toks, (Bool.and_eq_true _ _ ▸ hok).1,
              (Bool.and_eq_true _ _ ▸ hok).2, h''⟩
        · exact Or.inr h'
      · exact ih _ _ h

theorem slidingWindow_mem {t : Ticket} (toks : List (List Char)) (acc : List Ticket)
    (h : t ∈ slidingWindow toks acc) : t ∈ acc ∨ tierForm t :=
  slidingWindowAux_mem _ _ _ h

theorem slidingWindowAux_nodup :
    ∀ (fuel : Nat) (toks : List (List Char)) (acc : List Ticket),
      acc.Nodup → (slidingWindowAux fuel toks acc).Nodup := by
  intro fuel
  induction fuel with
  | zero => exact fun toks acc h => h
  | succ f ih =>
    intro toks acc h
    rw [slidingWindowAux]
    split
    · exact h
    · split
      · exact ih _ _ (nodup_dedupAppend h)
      · exact ih _ _ h

theorem slidingWindow_nodup (toks : List (List Char)) (acc : List Ticket)
    (h : acc.Nodup) : (slidingWindow toks acc).Nodup :=
  slidingWindowAux_nodup _ _ _ h

/-! Loose tiers -/

theorem scanBlues_mem {b : Nat} :
    ∀ (l : List (List Char)) (acc : List Nat),
      b ∈ scanBlues l acc → b ∈ acc ∨ (1 ≤ b ∧ b ≤ 12) := by
  intro l
  induction l with
  | nil => exact fun acc h => Or.inl h
  | cons n t ih =>
    intro acc h
    rw [scanBlues] at h
    split at h
    · next hcond =>
      simp only [Bool.and_eq_true, decide_eq_true_eq] at hcond
      obtain ⟨⟨h1, h2⟩, _⟩ := hcond
      split at h
      · rcases List.mem_append.mp h with h' | h'
        · exact Or.inl h'
        · rw [List.mem_singleton.mp h']
          exact Or.inr ⟨h1, h2⟩
      · rcases ih _ h with h' | h'
        · rcases List.mem_append.mp h' with h'' | h''
          · exact Or.inl h''
          · rw [List.mem_singleton.mp h'']
            exact Or.inr ⟨h1, h2⟩
        · exact Or.inr h'
    · exact ih _ h

theorem scanBlues_of_no_match :
    ∀ (l : List (List Char)) (acc : List Nat),
      (∀ s ∈ l, ¬(1 ≤ strToNat s ∧ strToNat s ≤ 12)) → scanBlues l acc = acc := by
  intro l
  induction l with
  | nil => exact fun acc _ => rfl
  | cons n t ih =>
    intro acc hf
    rw [scanBlues]
    have hn := hf n (by simp)
    have hneg : ¬(1 ≤ strToNat n && strToNat n ≤ 12 && !acc.contains (strToNat n)) = true := by
      simp only [Bool.and_eq_true, decide_eq_true_eq]
      intro h
      exact absurd ⟨h.1.1, h.1.2⟩ hn
    rw [if_neg hneg]
    exact ih acc fun s hs => hf s (by simp [hs])

theorem loosestTier_spec (nums : List (List Char)) (startTerm : Option Nat)
    (tCount : Nat) (needC : Bool) :
    (looseTiers.loosestTier nums startTerm tCount needC).needConfirm = true ∧
    ∀ t ∈ (looseTiers.loosestTier nums startTerm tCount needC).tickets,
      ∃ reds blues : List Nat,
        (∀ n ∈ reds, 1 ≤ n ∧ n ≤ 35) ∧ (∀ n ∈ blues, 1 ≤ n ∧ n ≤ 12) ∧
        t = mkTicket reds blues := by
  unfold looseTiers.loosestTier
  split
  · split
    · next hall =>
      simp only [List.all_eq_true, Bool.and_eq_true, decide_eq_true_eq] at hall
      split
      · refine ⟨rfl, ?_⟩
        intro t ht
        rw [List.mem_singleton.mp ht]
        refine ⟨_, _, fun n hn => hall n hn, ?_, rfl⟩
        intro n hn
        rcases scanBlues_mem _ _ hn with h' | h'
        · cases h'
        · exact h'
      · exact ⟨rfl, by simp⟩
    · exact ⟨rfl, by simp⟩
  · exact ⟨rfl, by simp⟩

/-- Every ticket the loose tiers emit is built by `mkTicket` from
range-checked numbers, and the tiers always set `needConfirm`. -/
theorem looseTiers_spec (nums : List (List Char)) (startTerm : Option Nat)
    (tCount : Nat) (needC : Bool) :
    (looseTiers nums startTerm tCount needC).needConfirm = true ∧
    ∀ t ∈ (looseTiers nums startTerm tCount needC).tickets,
      ∃ reds blues : List Nat,
        (∀ n ∈ reds, 1 ≤ n ∧ n ≤ 35) ∧ (∀ n ∈ blues, 1 ≤ n ∧ n ≤ 12) ∧
        t = mkTicket reds blues := by
  unfold looseTiers
  split
  · split
    · next hall =>
      simp only [Bool.and_eq_true, List.all_eq_true, Bool.and_eq_true,
        decide_eq_true_eq] at hall
      refine ⟨rfl, ?_⟩
      intro t ht
      rw [List.mem_singleton.mp ht]
      exact ⟨_, _, fun n hn => hall.1 n hn, fun n hn => hall.2 n hn, rfl⟩
    · exact loosestTier_spec nums startTerm tCount needC
  · exact loosestTier_spec nums startTerm tCount needC

theorem validNums_range {text : List Char} :
    ∀ s ∈ validNums text, 1 ≤ strToNat s ∧ strToNat s ≤ 35 := by
  intro s hs
  simp only [validNums] at hs
  obtain ⟨n, hn, rfl⟩ := List.mem_map.mp hs
  have := (List.mem_filter.mp hn).2
  simp only [Bool.and_eq_true, decide_eq_true_eq] at this
  rw [strToNat_zfill2]
  exact this

theorem canonicalL_len2 {l : List (List Char)} (h : canonicalL l) :
    ∀ s ∈ l, s.length = 2 := by
  obtain ⟨ns, _, hlt, rfl⟩ := h
  intro s hs
  obtain ⟨n, hn, rfl⟩ := List.mem_map.mp hs
  exact pad2_length n (hlt n hn)

/-! ### Claims about `parse_lottery_text` -/

/-- `parse_lottery_text` returns the direct-tier result, the
sliding-window result, or the loose-tier result. -/
theorem parse_cases (text : List Char) :
    ((parse_lottery_text text).tickets = directPass (singleLine text) ∧
      (parse_lottery_text text).needConfirm = (termExtract (singleLine text)).isNone) ∨
    ((parse_lottery_text text).tickets = slidingWindow (validNums text) [] ∧
      (parse_lottery_text text).needConfirm = (termExtract (singleLine text)).isNone) ∨
    (parse_lottery_text text =
      looseTiers (validNums text) (termExtract (singleLine text))
        (termCountExtract (singleLine text)) ((termExtract (singleLine text)).isNone)) := by
  unfold parse_lottery_text
  split_ifs with h1 h2
  · exact Or.inl ⟨rfl, rfl⟩
  · exact Or.inr (Or.inl ⟨rfl, rfl⟩)
  · exact Or.inr (Or.inr rfl)

/-- C10 (confirmed): every ticket `parse_lottery_text` returns renders its
red and blue numbers in canonical form — ascending numeric order, each as
a two-character zero-padded decimal string — regardless of the order they
appeared in the text. -/
theorem claim_C10 (text : List Char) :
    ∀ t ∈ (parse_lottery_text text).tickets,
      (canonicalL t.reds ∧ ∀ s ∈ t.reds, s.length = 2) ∧
      (canonicalL t.blues ∧ ∀ s ∈ t.blues, s.length = 2) := by
  intro t ht
  have hc : canonicalL t.reds ∧ canonicalL t.blues := by
    rcases parse_cases text with he | he | he
    · rw [he.1] at ht
      exact tierForm_canonical (directPass_mem ht)
    · rw [he.1] at ht
      rcases slidingWindow_mem _ _ ht with h' | h'
      · cases h'
      · exact tierForm_canonical h'
    · rw [he] at ht
      obtain ⟨reds, blues, hr, hb, rfl⟩ := (looseTiers_spec _ _ _ _).2 t ht
      exact canonical_mkTicket
        (fun n hn => by have := hr n hn; omega)
        (fun n hn => by have := hb n hn; omega)
  exact ⟨⟨hc.1, canonicalL_len2 hc.1⟩, ⟨hc.2, canonicalL_len2 hc.2⟩⟩

/-- C10 witness at a concrete input. -/
theorem claim_C10_witness :
    (canonicalL ((Ticket.mk
        [chars "03", chars "07", chars "12", chars "19", chars "25"]
        [chars "02", chars "11"]).reds) ∧
      ∀ s ∈ (Ticket.mk
        [chars "03", chars "07", chars "12", chars "19", chars "25"]
        [chars "02", chars "11"]).reds, s.length = 2) ∧
    (canonicalL ((Ticket.mk
        [chars "03", chars "07", chars "12", chars "19", chars "25"]
        [chars "02", chars "11"]).blues) ∧
      ∀ s ∈ (Ticket.mk
        [chars "03", chars "07", chars "12", chars "19", chars "25"]
        [chars "02", chars "11"]).blues, s.length = 2) :=
  claim_C10 (chars "03 07 12 19 25 + 02 11") _ (by
    rw [show (parse_lottery_text (chars "03 07 12 19 25 + 02 11")).tickets =
      [Ticket.mk
        [chars "03", chars "07", chars "12", chars "19", chars "25"]
        [chars "02", chars "11"]] from rfl]
    exact List.mem_singleton_self _)

/-- C1 (corrected): the §3 validity invariant is guaranteed only for
results with `needConfirm = false`; the relaxed tiers can emit
invariant-violating candidates, but always set `needConfirm`. -/
theorem claim_C1_amended (text : List Char)
    (h : (parse_lottery_text text).needConfirm = false) :
    ∀ t ∈ (parse_lottery_text text).tickets, validTicket t := by
  intro t ht
  rcases parse_cases text with he | he | he
  · rw [he.1] at ht
    exact tierForm_valid (directPass_mem ht)
  · rw [he.1] at ht
    rcases slidingWindow_mem _ _ ht with h' | h'
    · cases h'
    · exact tierForm_valid h'
  · rw [he] at h
    rw [(looseTiers_spec _ _ _ _).1] at h
    cases h

/-- C1 witness: a clean direct-format input parses with
`needConfirm = false` and only valid tickets. -/
theorem claim_C1_witness :
    (parse_lottery_text (chars "第25101期 01 02 03 04 05 + 06 07")).needConfirm = false ∧
    ∀ t ∈ (parse_lottery_text (chars "第25101期 01 02 03 04 05 + 06 07")).tickets,
      validTicket t :=
  ⟨by decide, claim_C1_amended _ (by decide)⟩

/-- C1 counterexample: on `"01 01 02 03 04 05 06"` the relaxed tier
returns a candidate with a duplicated red number `01`, violating the
uniqueness part of the invariant — so an invalid candidate does reach the
caller. -/
theorem claim_C1_counterexample :
    (parse_lottery_text (chars "01 01 02 03 04 05 06")).tickets =
      [Ticket.mk
        [chars "01", chars "01", chars "02", chars "03", chars "04"]
        [chars "05", chars "06"]] ∧
    ¬ validTicket (Ticket.mk
        [chars "01", chars "01", chars "02", chars "03", chars "04"]
        [chars "05", chars "06"]) := by
  constructor
  · decide
  · decide

/-- C2 counterexample: the all-digit input `"03071219250211"` produces no
ticket at all (the 14-digit run is removed by the long-digit-run noise
rule), while the separated input `"03 07 12 19 25 + 02 11"` produces the
expected single ticket — so the two inputs do not yield the same result. -/
theorem claim_C2_counterexample :
    (parse_lottery_text (chars "03071219250211")).tickets = [] ∧
    (parse_lottery_text (chars "03 07 12 19 25 + 02 11")).tickets =
      [Ticket.mk
        [chars "03", chars "07", chars "12", chars "19", chars "25"]
        [chars "02", chars "11"]] := by
  constructor
  · decide
  · decide

/-- C2 (corrected): the unseparated digit run `"0307121925" ++ "0211"` is
a 14-digit run, which the noise-stripping rule for long digit runs
(`\d{8,}`, treating them as serial numbers) deletes before tokenization;
the parse therefore returns no tickets and `needConfirm = true`, unlike
the separated input, which yields the ticket
`{3,7,12,19,25} + {2,11}` via the direct tier. -/
theorem claim_C2_amended :
    parse_lottery_text (chars "03071219250211") =
      ⟨[], none, 1, true⟩ ∧
    (parse_lottery_text (chars "03 07 12 19 25 + 02 11")).tickets =
      [Ticket.mk
        [chars "03", chars "07", chars "12", chars "19", chars "25"]
        [chars "02", chars "11"]] := by
  constructor
  · decide
  · decide

/-- C3 counterexample: `"05 10 15 20 25 08"` has exactly 6 valid tokens
(no 7-token window exists), yet the tickets list is not empty: the
loosest tier returns a one-blue candidate `reds {5,10,15,20,25}`,
`blues {8}`. -/
theorem claim_C3_counterexample :
    (validNums (chars "05 10 15 20 25 08")).length = 6 ∧
    (parse_lottery_text (chars "05 10 15 20 25 08")).tickets =
      [Ticket.mk
        [chars "05", chars "10", chars "15", chars "20", chars "25"]
        [chars "08"]] ∧
    (parse_lottery_text (chars "05 10 15 20 25 08")).tickets ≠ [] := by
  refine ⟨by decide, by decide, ?_⟩
  intro h
  rw [show (parse_lottery_text (chars "05 10 15 20 25 08")).tickets =
    [Ticket.mk
      [chars "05", chars "10", chars "15", chars "20", chars "25"]
      [chars "08"]] from by decide] at h
  cases h

/-- C3 (corrected): with exactly 6 valid tokens (and the direct tier
matching nothing) the window tier cannot fire, and the result is an empty
tickets list with `needConfirm = true` — provided no token beyond the
first five lies in `[1,12]`; otherwise the loosest tier still emits a
single low-confidence candidate (with `needConfirm = true`). -/
theorem claim_C3_amended (text : List Char)
    (hd : directPass (singleLine text) = [])
    (h6 : (validNums text).length = 6)
    (hb : ∀ s ∈ (validNums text).drop 5, ¬(1 ≤ strToNat s ∧ strToNat s ≤ 12)) :
    (parse_lottery_text text).tickets = [] ∧
    (parse_lottery_text text).needConfirm = true := by
  unfold parse_lottery_text
  split_ifs with h1 h2
  · exact absurd hd h1
  · exact absurd (slidingWindow_lt7 (by omega)) h2
  · unfold looseTiers
    rw [if_neg (by omega : ¬ 7 ≤ (validNums text).length)]
    unfold looseTiers.loosestTier
    rw [if_pos (by omega : 5 ≤ (validNums text).length)]
    have hall : (((validNums text).take 5).map strToNat).all
        (fun n => 1 ≤ n && n ≤ 35) = true := by
      rw [List.all_eq_true]
      intro x hx
      obtain ⟨n, hn, rfl⟩ := List.mem_map.mp hx
      have hr := validNums_range n (List.mem_of_mem_take hn)
      simp only [Bool.and_eq_true, decide_eq_true_eq]
      exact hr
    rw [if_pos hall, scanBlues_of_no_match _ _ hb,
      if_neg (by simp : ¬ 1 ≤ ([] : List Nat).length)]
    exact ⟨rfl, rfl⟩

/-- C3 witness: `"05 10 15 20 25 13"` has exactly 6 valid tokens, the
sixth outside `[1,12]`, and indeed parses to no tickets with
`needConfirm = true`. -/
theorem claim_C3_witness :
    (parse_lottery_text (chars "05 10 15 20 25 13")).tickets = [] ∧
    (parse_lottery_text (chars "05 10 15 20 25 13")).needConfirm = true :=
  claim_C3_amended (chars "05 10 15 20 25 13") (by decide) (by decide) (by decide)

/-! ### C7: draw-term extraction -/

theorem looseTiers_startTerm (nums : List (List Char)) (startTerm : Option Nat)
    (tCount : Nat) (needC : Bool) :
    (looseTiers nums startTerm tCount needC).startTerm = startTerm := by
  unfold looseTiers looseTiers.loosestTier
  split_ifs <;> rfl

theorem parse_startTerm (text : List Char) :
    (parse_lottery_text text).startTerm = termExtract (singleLine text) := by
  unfold parse_lottery_text
  split_ifs
  · rfl
  · rfl
  · exact looseTiers_startTerm _ _ _ _

theorem parse_needConfirm_of_term_none (text : List Char)
    (h : termExtract (singleLine text) = none) :
    (parse_lottery_text text).needConfirm = true := by
  rcases parse_cases text with he | he | he
  · rw [he.2, h]; rfl
  · rw [he.2, h]; rfl
  · rw [he]; exact (looseTiers_spec _ _ _ _).1

/-- C7 (corrected): the three draw-term patterns are tried in priority
order over the merged text and the first match sets `startTerm`
(`第25101期` yields `25101`); if none matches, `startTerm` stays empty and
`needConfirm` is set.  There is no loose 5-digit fallback in the code. -/
theorem claim_C7_amended :
    (∀ text d, searchFirst mTerm1 (singleLine text) = some d →
      (parse_lottery_text text).startTerm = some (strToNat d)) ∧
    (∀ text d, searchFirst mTerm1 (singleLine text) = none →
      searchFirst mTerm2 (singleLine text) = some d →
      (parse_lottery_text text).startTerm = some (strToNat d)) ∧
    (∀ text d, searchFirst mTerm1 (singleLine text) = none →
      searchFirst mTerm2 (singleLine text) = none →
      searchFirst mTerm3 (singleLine text) = some d →
      (parse_lottery_text text).startTerm = some (strToNat d)) ∧
    (∀ text, searchFirst mTerm1 (singleLine text) = none →
      searchFirst mTerm2 (singleLine text) = none →
      searchFirst mTerm3 (singleLine text) = none →
      (parse_lottery_text text).startTerm = none ∧
      (parse_lottery_text text).needConfirm = true) ∧
    (parse_lottery_text (chars "第25101期")).startTerm = some 25101 := by
  refine ⟨?_, ?_, ?_, ?_, by decide⟩
  · intro text d h1
    rw [parse_startTerm]
    unfold termExtract
    rw [h1]
  · intro text d h1 h2
    rw [parse_startTerm]
    unfold termExtract
    rw [h1, h2]
  · intro text d h1 h2 h3
    rw [parse_startTerm]
    unfold termExtract
    rw [h1, h2, h3]
    rfl
  · intro text h1 h2 h3
    have hte : termExtract (singleLine text) = none := by
      unfold termExtract
      rw [h1, h2, h3]
      rfl
    exact ⟨by rw [parse_startTerm]; exact hte,
      parse_needConfirm_of_term_none text hte⟩

/-- C7 witness: a matching and a non-matching concrete input, through the
amended theorem. -/
theorem claim_C7_witness :
    (parse_lottery_text (chars "第12345期")).startTerm =
      some (strToNat (chars "12345")) ∧
    (parse_lottery_text (chars "zz")).startTerm = none ∧
    (parse_lottery_text (chars "zz")).needConfirm = true :=
  ⟨claim_C7_amended.1 _ _ (by decide),
    (claim_C7_amended.2.2.2.1 _ (by decide) (by decide) (by decide)).1,
    (claim_C7_amended.2.2.2.1 _ (by decide) (by decide) (by decide)).2⟩

/-- C7 counterexample: the text `"25101"` contains a 5-digit token whose
leading digit is in `[2,9]` and which cannot equal any calendar year
(years have four digits); the claimed loose fallback would set
`startTerm = 25101`, but the code leaves it empty. -/
theorem claim_C7_counterexample :
    (parse_lottery_text (chars "25101")).startTerm = none ∧
    ¬ (parse_lottery_text (chars "25101")).startTerm = some 25101 ∧
    (∀ y : Nat, y ≤ 9999 → 25101 ≠ y) := by
  refine ⟨by decide, ?_, by omega⟩
  intro h
  rw [show (parse_lottery_text (chars "25101")).startTerm = none from by decide] at h
  cases h

/-! ### C6: the sliding-window tier -/

/-- The code's window test agrees with the spec's acceptance condition. -/
theorem acceptSpec_iff_code {toks : List (List Char)} (h7 : 7 ≤ toks.length) :
    ((redsOk ((toks.take 5).map strToNat) &&
      bluesOk (((toks.drop 5).take 2).map strToNat)) = true) ↔ acceptSpec toks := by
  have hlr : ((toks.take 5).map strToNat).length = 5 := by
    rw [List.length_map, List.length_take]; omega
  have hlb : (((toks.drop 5).take 2).map strToNat).length = 2 := by
    rw [List.length_map, List.length_take, List.length_drop]; omega
  simp only [acceptSpec]
  constructor
  · intro h
    rw [Bool.and_eq_true] at h
    exact ⟨(redsOk_nodup_length h.1 (by omega)).2,
      fun n hn => redsOk_range h.1 n hn,
      (bluesOk_nodup_length h.2 (by omega)).2,
      fun n hn => bluesOk_range h.2 n hn⟩
  · rintro ⟨hnd, hrange, hbnd, hbrange⟩
    rw [Bool.and_eq_true]
    constructor
    · unfold redsOk
      rw [Bool.and_eq_true]
      refine ⟨List.all_eq_true.mpr fun n hn => ?_, ?_⟩
      · simp only [Bool.and_eq_true, decide_eq_true_eq]
        exact hrange n hn
      · rw [List.dedup_eq_self.mpr hnd, hlr]
        rfl
    · unfold bluesOk
      rw [Bool.and_eq_true]
      refine ⟨List.all_eq_true.mpr fun n hn => ?_, ?_⟩
      · simp only [Bool.and_eq_true, decide_eq_true_eq]
        exact hbrange n hn
      · rw [List.dedup_eq_self.mpr hbnd, hlb]
        rfl

/-- Two tier-form candidates resolving to the same red and blue sets are
equal (both are canonically rendered). -/
theorem canonical_sets_eq {l l' : List Nat}
    (hl : ∀ n ∈ l, n < 100) (hl' : ∀ n ∈ l', n < 100)
    (hnd : l.Nodup) (hnd' : l'.Nodup)
    (hfin : (((l.insertionSort (· ≤ ·)).map pad2).map strToNat).toFinset =
      (((l'.insertionSort (· ≤ ·)).map pad2).map strToNat).toFinset) :
    (l.insertionSort (· ≤ ·)).map pad2 = (l'.insertionSort (· ≤ ·)).map pad2 := by
  have decode : ∀ (m : List Nat), (∀ n ∈ m, n < 100) →
      (((m.insertionSort (· ≤ ·)).map pad2).map strToNat) = m.insertionSort (· ≤ ·) :=
    fun m hm => map_strToNat_pad2 fun n hn => hm n (mem_insertionSort_nat hn)
  rw [decode l hl, decode l' hl'] at hfin
  have snd : (l.insertionSort (· ≤ ·)).Nodup :=
    ((List.perm_insertionSort (· ≤ ·) l).nodup_iff).mpr hnd
  have snd' : (l'.insertionSort (· ≤ ·)).Nodup :=
    ((List.perm_insertionSort (· ≤ ·) l').nodup_iff).mpr hnd'
  have hperm : List.Perm (l.insertionSort (· ≤ ·)) (l'.insertionSort (· ≤ ·)) := by
    have hp := List.toFinset_eq_iff_perm_dedup.mp hfin
    rwa [List.dedup_eq_self.mpr snd, List.dedup_eq_self.mpr snd'] at hp
  have hsort : l.insertionSort (· ≤ ·) = l'.insertionSort (· ≤ ·) :=
    List.eq_of_perm_of_sorted hperm
      (List.sorted_insertionSort _ l) (List.sorted_insertionSort _ l')
  rw [hsort]

theorem tierForm_sameSets_eq {a b : Ticket} (ha : tierForm a) (hb : tierForm b)
    (hs : sameSets a b) : a = b := by
  obtain ⟨g, hgr, hgb, rfl⟩ := ha
  obtain ⟨g', hgr', hgb', rfl⟩ := hb
  obtain ⟨hs1, hs2⟩ := hs
  simp only [windowTicket, mkTicket] at hs1 hs2 ⊢
  rw [Ticket.mk.injEq]
  constructor
  · exact canonical_sets_eq
      (fun n hn => by have := redsOk_range hgr n hn; omega)
      (fun n hn => by have := redsOk_range hgr' n hn; omega)
      (redsOk_nodup_length hgr (by simp)).2
      (redsOk_nodup_length hgr' (by simp)).2
      hs1
  · exact canonical_sets_eq
      (fun n hn => by have := bluesOk_range hgb n hn; omega)
      (fun n hn => by have := bluesOk_range hgb' n hn; omega)
      (bluesOk_nodup_length hgb (by simp)).2
      (bluesOk_nodup_length hgb' (by simp)).2
      hs2

/-- C6 (confirmed): the sliding window accepts a width-7 window exactly
under the spec's condition (first 5 tokens pairwise distinct and in
`[1,35]`, last 2 pairwise distinct and in `[1,12]`); it advances by 7 on
acceptance and by 1 on rejection; and no two candidates in its output
resolve to the same red and blue sets. -/
theorem claim_C6 :
    (∀ toks : List (List Char), 7 ≤ toks.length →
      ∀ acc : List Ticket,
        (acceptSpec toks →
          slidingWindow toks acc =
            slidingWindow (toks.drop 7) (dedupAppend acc (windowTicket toks))) ∧
        (¬ acceptSpec toks →
          slidingWindow toks acc = slidingWindow (toks.drop 1) acc)) ∧
    (∀ toks : List (List Char),
      List.Pairwise (fun a b => ¬ sameSets a b) (slidingWindow toks [])) := by
  constructor
  · intro toks h7 acc
    obtain ⟨k, hk⟩ : ∃ k, toks.length = k + 1 := ⟨toks.length - 1, by omega⟩
    constructor
    · intro hacc
      have hcode := (acceptSpec_iff_code h7).mpr hacc
      unfold slidingWindow
      rw [hk]
      rw [slidingWindowAux]
      rw [if_neg (by omega : ¬ toks.length < 7), if_pos hcode]
      exact slidingWindowAux_fuel_eq _ _ _ _
        (by rw [List.length_drop]; omega) (le_refl _)
    · intro hacc
      have hcode : ¬ (redsOk ((toks.take 5).map strToNat) &&
          bluesOk (((toks.drop 5).take 2).map strToNat)) = true := by
        intro hc
        exact hacc ((acceptSpec_iff_code h7).mp hc)
      unfold slidingWindow
      rw [hk]
      rw [slidingWindowAux]
      rw [if_neg (by omega : ¬ toks.length < 7), if_neg hcode]
      exact slidingWindowAux_fuel_eq _ _ _ _
        (by rw [List.length_drop]; omega) (le_refl _)
  · intro toks
    have hnd : (slidingWindow toks []).Nodup := slidingWindow_nodup toks [] List.nodup_nil
    have hmem : ∀ t ∈ slidingWindow toks [], tierForm t := by
      intro t ht
      rcases slidingWindow_mem _ _ ht with h' | h'
      · cases h'
      · exact h'
    refine List.Pairwise.imp_of_mem ?_ hnd
    intro a b ha hb hne hsame
    exact hne (tierForm_sameSets_eq (hmem a ha) (hmem b hb) hsame)

/-- C6 witness: a concrete accepted window advances by 7. -/
theorem claim_C6_witness :
    slidingWindow
      [chars "01", chars "02", chars "03", chars "04", chars "05", chars "06", chars "07"]
      [] =
    slidingWindow []
      (dedupAppend []
        (windowTicket
          [chars "01", chars "02", chars "03", chars "04", chars "05",
            chars "06", chars "07"])) :=
  (claim_C6.1 _ (by decide) []).1 (by decide)

/-! ### C8: the strategy scorer -/

theorem pyInt_eq_floor {q : ℚ} (h : 0 ≤ q) : pyInt q = Int.floor q := by
  unfold pyInt
  rw [Rat.floor_def]
  exact Int.tdiv_eq_ediv (Rat.num_nonneg.mpr h) (Int.ofNat_nonneg q.den)

/-- C8 (confirmed): `evaluate_ocr_result` computes exactly the spec's sum
— 2 per fragment, +20 for the draw-term pattern, +30 for the full ticket
pattern, +15 / +10 for ≥7 / ≥14 in-range standalone two-digit substrings,
`floor(20 × average confidence)` when confidences are present, +5 for a
product keyword — and is 0 when there are no fragments or the merged text
is empty.  (Confidences are nonnegative per the §3 data model, which makes
Python `int()` truncation agree with `floor`.) -/
theorem claim_C8 (data : List OcrItem) (text : List Char)
    (hconf : ∀ q ∈ data.filterMap itemConf, 0 ≤ q) :
    evaluate_ocr_result data text = evalSpecScore data text := by
  unfold evaluate_ocr_result evalSpecScore
  by_cases hd : data = []
  · subst hd
    rw [if_pos (by simp), if_pos (Or.inl rfl)]
  · by_cases htx : text = []
    · subst htx
      rw [if_pos (by simp), if_pos (Or.inr rfl)]
    · rw [if_neg (show ¬ (data.isEmpty || text.isEmpty) = true from by simp [hd, htx]),
        if_neg (show ¬ (data = [] ∨ text = []) from by tauto)]
      dsimp only
      have hconfpart :
          (if (data.filterMap itemConf).isEmpty then (0 : ℤ)
            else pyInt ((data.filterMap itemConf).sum /
              ((data.filterMap itemConf).length : ℚ) * 20)) =
          (if data.filterMap itemConf = [] then (0 : ℤ)
            else Int.floor ((20 : ℚ) * ((data.filterMap itemConf).sum /
              ((data.filterMap itemConf).length : ℚ)))) := by
        by_cases hc : data.filterMap itemConf = []
        · rw [if_pos (by simp [hc]), if_pos hc]
        · rw [if_neg (by simp [hc]), if_neg hc]
          have hsum : 0 ≤ (data.filterMap itemConf).sum := List.sum_nonneg hconf
          have hnn : 0 ≤ (data.filterMap itemConf).sum /
              ((data.filterMap itemConf).length : ℚ) * 20 :=
            mul_nonneg (div_nonneg hsum (by positivity)) (by norm_num)
          rw [pyInt_eq_floor hnn, mul_comm]
      rw [hconfpart, mul_comm ((data.length : ℤ)) 2]

/-- C8 witness at a concrete recognition output. -/
theorem claim_C8_witness :
    evaluate_ocr_result itemsScore12 (mergeText itemsScore12) =
      evalSpecScore itemsScore12 (mergeText itemsScore12) :=
  claim_C8 _ _ (by
    intro q hq
    rw [show itemsScore12.filterMap itemConf = ([] : List ℚ) from rfl] at hq
    exact absurd hq (List.not_mem_nil q))

/-! ### C5: stable first-maximum strategy selection -/

theorem bestState_score_mk (r : Option (List OcrItem)) (s : ℤ) (n t : List Char) :
    (BestState.mk r s n t).score = s := rfl

theorem bestState_name_mk (r : Option (List OcrItem)) (s : ℤ) (n t : List Char) :
    (BestState.mk r s n t).name = n := rfl

/-- First-maximum behaviour of the strategy loop, for each of the five
positions of the fixed evaluation order. -/
theorem msSelect_firstMax :
    ∀ (a b c d e : List OcrItem) (xa xb xc xd xe : ℤ),
      evaluate_ocr_result a (mergeText a) = xa →
      evaluate_ocr_result b (mergeText b) = xb →
      evaluate_ocr_result c (mergeText c) = xc →
      evaluate_ocr_result d (mergeText d) = xd →
      evaluate_ocr_result e (mergeText e) = xe →
      0 ≤ xa →
      ((xb ≤ xa → xc ≤ xa → xd ≤ xa → xe ≤ xa →
        (multi_strategy_ocr [some a, some b, some c, some d, some e]).name =
          chars "标准处理") ∧
       (xa < xb → xc ≤ xb → xd ≤ xb → xe ≤ xb →
        (multi_strategy_ocr [some a, some b, some c, some d, some e]).name =
          chars "高对比度") ∧
       (xa < xc → xb < xc → xd ≤ xc → xe ≤ xc →
        (multi_strategy_ocr [some a, some b, some c, some d, some e]).name =
          chars "二值化") ∧
       (xa < xd → xb < xd → xc < xd → xe ≤ xd →
        (multi_strategy_ocr [some a, some b, some c, some d, some e]).name =
          chars "降噪处理") ∧
       (xa < xe → xb < xe → xc < xe → xd < xe →
        (multi_strategy_ocr [some a, some b, some c, some d, some e]).name =
          chars "自适应阈值")) := by
  intro a b c d e xa xb xc xd xe ha hb hc hd he hnn
  simp only [multi_strategy_ocr, strategyNames, List.zip, List.zipWith, List.foldl,
    msStep, ha, hb, hc, hd, he, bestState_score_mk, bestState_name_mk]
  refine ⟨?_, ?_, ?_, ?_, ?_⟩ <;>
    · intro h1 h2 h3 h4
      split_ifs <;>
        first
          | rfl
          | omega
          | (simp only [bestState_score_mk] at *; omega)

/-- The concrete recognition outputs above score 12, 47, 30 and 5. -/
theorem evaluate_itemsScore12 :
    evaluate_ocr_result itemsScore12 (mergeText itemsScore12) = 12 := by decide

theorem evaluate_itemsScore47 :
    evaluate_ocr_result itemsScore47 (mergeText itemsScore47) = 47 := by decide

theorem evaluate_itemsScore30 :
    evaluate_ocr_result itemsScore30 (mergeText itemsScore30) = 30 := by decide

theorem evaluate_itemsScore5 :
    evaluate_ocr_result itemsScore5 (mergeText itemsScore5) = 5 := by
  have h1 : (searchFirst mTerm1 (mergeText itemsScore5)).isSome = false := by decide
  have h2 : (searchFirst mScore30 (mergeText itemsScore5)).isSome = false := by decide
  have h3 : findB2 (mergeText itemsScore5) = [] := by decide
  have h4 : containsSub (chars "大乐透") (mergeText itemsScore5) = false := by decide
  have h5 : containsSub (chars "超级大乐透") (mergeText itemsScore5) = false := by decide
  have h6 : itemsScore5.filterMap itemConf = [(3 : ℚ)/20] := rfl
  have h7 : itemsScore5.length = 1 := rfl
  have hp : pyInt ((3 : ℚ)) = 3 := by
    unfold pyInt
    rw [Rat.num_ofNat, Rat.den_ofNat]
    decide
  unfold evaluate_ocr_result
  rw [if_neg (by decide)]
  dsimp only
  rw [h1, h2, h3, h4, h5, h6, h7]
  norm_num [hp]

/-- C5 (confirmed): the strategy loop replaces the running best only on a
strictly higher score, so the first maximum wins; in particular on the
concrete score vector [12, 47, 47, 30, 5] the earlier of the two 47s (the
high-contrast strategy, position 2) is selected. -/
theorem claim_C5 :
    (∀ (a b c d e : List OcrItem) (xa xb xc xd xe : ℤ),
      evaluate_ocr_result a (mergeText a) = xa →
      evaluate_ocr_result b (mergeText b) = xb →
      evaluate_ocr_result c (mergeText c) = xc →
      evaluate_ocr_result d (mergeText d) = xd →
      evaluate_ocr_result e (mergeText e) = xe →
      0 ≤ xa →
      ((xb ≤ xa → xc ≤ xa → xd ≤ xa → xe ≤ xa →
        (multi_strategy_ocr [some a, some b, some c, some d, some e]).name =
          chars "标准处理") ∧
       (xa < xb → xc ≤ xb → xd ≤ xb → xe ≤ xb →
        (multi_strategy_ocr [some a, some b, some c, some d, some e]).name =
          chars "高对比度") ∧
       (xa < xc → xb < xc → xd ≤ xc → xe ≤ xc →
        (multi_strategy_ocr [some a, some b, some c, some d, some e]).name =
          chars "二值化") ∧
       (xa < xd → xb < xd → xc < xd → xe ≤ xd →
        (multi_strategy_ocr [some a, some b, some c, some d, some e]).name =
          chars "降噪处理") ∧
       (xa < xe → xb < xe → xc < xe → xd < xe →
        (multi_strategy_ocr [some a, some b, some c, some d, some e]).name =
          chars "自适应阈值"))) ∧
    (multi_strategy_ocr
      [some itemsScore12, some itemsScore47, some itemsScore47,
        some itemsScore30, some itemsScore5]).name = chars "高对比度" :=
  ⟨msSelect_firstMax,
    (msSelect_firstMax itemsScore12 itemsScore47 itemsScore47 itemsScore30 itemsScore5
        12 47 47 30 5 evaluate_itemsScore12 evaluate_itemsScore47 evaluate_itemsScore47
        evaluate_itemsScore30 evaluate_itemsScore5 (by norm_num)).2.1
      (by norm_num) (by norm_num) (by norm_num) (by norm_num)⟩

/-- C5 witness: the first-maximum statement of the claim applied to the
concrete outputs scoring [12, 47, 47, 30, 5]. -/
theorem claim_C5_witness :
    (multi_strategy_ocr
      [some itemsScore12, some itemsScore47, some itemsScore47,
        some itemsScore30, some itemsScore5]).name = chars "高对比度" :=
  (claim_C5.1 itemsScore12 itemsScore47 itemsScore47 itemsScore30 itemsScore5
      12 47 47 30 5 evaluate_itemsScore12 evaluate_itemsScore47 evaluate_itemsScore47
      evaluate_itemsScore30 evaluate_itemsScore5 (by norm_num)).2.1
    (by norm_num) (by norm_num) (by norm_num) (by norm_num)

/-! ### C4: the NoTextDetected failure -/

theorem pyInt_nonneg {q : ℚ} (h : 0 ≤ q) : 0 ≤ pyInt q := by
  rw [pyInt_eq_floor h]
  exact Int.le_floor.mpr (by exact_mod_cast h)

/-- A strategy with fragments and a nonempty merged text scores
positively (given the §3 nonnegative confidences). -/
theorem evaluate_pos_of_nonempty {data : List OcrItem} {text : List Char}
    (hd : data ≠ []) (ht : text ≠ [])
    (hconf : ∀ q ∈ data.filterMap itemConf, 0 ≤ q) :
    0 < evaluate_ocr_result data text := by
  unfold evaluate_ocr_result
  rw [if_neg (show ¬ (data.isEmpty || text.isEmpty) = true from by simp [hd, ht])]
  dsimp only
  have hlen : 1 ≤ (data.length : ℤ) := by
    have := List.length_pos.mpr hd
    exact_mod_cast this
  have h2 : (0:ℤ) ≤ if (searchFirst mTerm1 text).isSome = true then 20 else 0 := by
    split_ifs <;> norm_num
  have h3 : (0:ℤ) ≤ if (searchFirst mScore30 text).isSome = true then 30 else 0 := by
    split_ifs <;> norm_num
  have h4a : (0:ℤ) ≤ if 7 ≤ ((findB2 text).filter fun n =>
      1 ≤ strToNat n && strToNat n ≤ 35).length then 15 else 0 := by
    split_ifs <;> norm_num
  have h4b : (0:ℤ) ≤ if 14 ≤ ((findB2 text).filter fun n =>
      1 ≤ strToNat n && strToNat n ≤ 35).length then 10 else 0 := by
    split_ifs <;> norm_num
  have h5 : (0:ℤ) ≤ if (data.filterMap itemConf).isEmpty = true then 0
      else pyInt ((data.filterMap itemConf).sum /
        ((data.filterMap itemConf).length : ℚ) * 20) := by
    split_ifs with hc
    · exact le_refl 0
    · refine pyInt_nonneg (mul_nonneg (div_nonneg ?_ (by positivity)) (by norm_num))
      exact List.sum_nonneg hconf
  have h6 : (0:ℤ) ≤ if (containsSub (chars "大乐透") text ||
      containsSub (chars "超级大乐透") text) = true then 5 else 0 := by
    split_ifs <;> norm_num
  omega

/-- The merged text of a strategy that scores at most 0 is empty
(confidences nonnegative). -/
theorem mergeText_empty_of_nonpos {data : List OcrItem}
    (hconf : ∀ q ∈ data.filterMap itemConf, 0 ≤ q)
    (hle : evaluate_ocr_result data (mergeText data) ≤ 0) :
    mergeText data = [] := by
  by_cases hd : data = []
  · subst hd
    rfl
  · by_contra ht
    exact absurd hle (not_le.mpr (evaluate_pos_of_nonempty hd ht hconf))

theorem foldl_msStep_text_empty :
    ∀ (l : List (List Char × Option (List OcrItem))) (st : BestState),
      (∀ p ∈ l, ∀ data, p.2 = some data →
        (∀ q ∈ data.filterMap itemConf, 0 ≤ q) ∧
        evaluate_ocr_result data (mergeText data) ≤ 0) →
      st.text = [] → (l.foldl msStep st).text = [] := by
  intro l
  induction l with
  | nil => exact fun st _ h => h
  | cons a t ih =>
    intro st hmem hst
    rw [List.foldl_cons]
    refine ih _ (fun p hp => hmem p (List.mem_cons_of_mem a hp)) ?_
    obtain ⟨nm, r⟩ := a
    cases r with
    | none => exact hst
    | some data =>
      obtain ⟨hc, hle⟩ := hmem (nm, some data) (List.mem_cons_self _ _) data rfl
      simp only [msStep]
      split_ifs
      · exact mergeText_empty_of_nonpos hc hle
      · exact hst

theorem msStep_score_mono (st : BestState) (nr : List Char × Option (List OcrItem)) :
    st.score ≤ (msStep st nr).score := by
  obtain ⟨nm, r⟩ := nr
  cases r with
  | none => exact le_refl _
  | some data =>
    simp only [msStep]
    split_ifs with h
    · rw [bestState_score_mk]
      exact le_of_lt h
    · exact le_refl _

theorem foldl_msStep_score_mono :
    ∀ (l : List (List Char × Option (List OcrItem))) (st : BestState),
      st.score ≤ (l.foldl msStep st).score := by
  intro l
  induction l with
  | nil => exact fun st => le_refl _
  | cons a t ih =>
    intro st
    rw [List.foldl_cons]
    exact le_trans (msStep_score_mono st a) (ih (msStep st a))

theorem foldl_msStep_score_ge {nm : List Char} {data : List OcrItem} :
    ∀ (l : List (List Char × Option (List OcrItem))) (st : BestState),
      (nm, some data) ∈ l →
      evaluate_ocr_result data (mergeText data) ≤ (l.foldl msStep st).score := by
  intro l
  induction l with
  | nil => exact fun st h => absurd h (List.not_mem_nil _)
  | cons a t ih =>
    intro st h
    rw [List.foldl_cons]
    rcases List.mem_cons.mp h with rfl | h'
    · refine le_trans ?_ (foldl_msStep_score_mono t _)
      simp only [msStep]
      split_ifs with hlt
      · rw [bestState_score_mk]
      · omega
    · exact ih _ h'

theorem exists_mem_zip {α β : Type} (l1 : List α) {l2 : List β} {b : β}
    (hb : b ∈ l2) (hlen : l2.length ≤ l1.length) :
    ∃ a, (a, b) ∈ l1.zip l2 := by
  obtain ⟨i, hi, hgot⟩ := List.mem_iff_getElem.mp hb
  have hi1 : i < l1.length := lt_of_lt_of_le hi hlen
  have hiz : i < (l1.zip l2).length := by
    rw [List.length_zip]
    omega
  refine ⟨l1.get ⟨i, hi1⟩, ?_⟩
  have hmemz := List.get_mem (l1.zip l2) i hiz
  have hz : (l1.zip l2).get ⟨i, hiz⟩ = (l1.get ⟨i, hi1⟩, b) := by
    rw [List.get_eq_getElem, List.getElem_zip, List.get_eq_getElem, hgot]
  rw [hz] at hmemz
  exact hmemz

theorem foldl_msStep_inv (results : List (Option (List OcrItem))) :
    ∀ (l : List (List Char × Option (List OcrItem))),
      (∀ p ∈ l, p.2 ∈ results) →
      ∀ st : BestState,
      ((st.result = none ∧ st.score = -1) ∨
        (∃ data, some data ∈ results ∧ st.result = some data ∧
          st.text = mergeText data ∧
          st.score = evaluate_ocr_result data (mergeText data))) →
      (((l.foldl msStep st).result = none ∧ (l.foldl msStep st).score = -1) ∨
        (∃ data, some data ∈ results ∧ (l.foldl msStep st).result = some data ∧
          (l.foldl msStep st).text = mergeText data ∧
          (l.foldl msStep st).score = evaluate_ocr_result data (mergeText data))) := by
  intro l
  induction l with
  | nil => exact fun _ st h => h
  | cons a t ih =>
    intro hmem st h
    rw [List.foldl_cons]
    refine ih (fun p hp => hmem p (List.mem_cons_of_mem a hp)) _ ?_
    obtain ⟨nm, r⟩ := a
    cases r with
    | none => exact h
    | some data =>
      simp only [msStep]
      split_ifs
      · exact Or.inr ⟨data, hmem (nm, some data) (List.mem_cons_self _ _), rfl, rfl, rfl⟩
      · exact h

/-- C4 (corrected): if every strategy scores ≤ 0 or yields no fragments,
the request reports the NoTextDetected failure; conversely, if some
strategy scores > 0 and every strategy whose merged text is blank scores
≤ 0, NoTextDetected is not reported.  (Confidences are nonnegative per
§3; the per-request strategy list has at most the five fixed entries.) -/
theorem claim_C4_amended :
    (∀ results : List (Option (List OcrItem)),
      (∀ r ∈ results, ∀ data, r = some data →
        (∀ q ∈ data.filterMap itemConf, 0 ≤ q) ∧
        evaluate_ocr_result data (mergeText data) ≤ 0) →
      noTextDetected results = true) ∧
    (∀ results : List (Option (List OcrItem)),
      results.length ≤ 5 →
      (∀ r ∈ results, ∀ data, r = some data → stripWs (mergeText data) = [] →
        evaluate_ocr_result data (mergeText data) ≤ 0) →
      (∃ data, some data ∈ results ∧
        0 < evaluate_ocr_result data (mergeText data)) →
      noTextDetected results = false) := by
  constructor
  · intro results hyp
    have htext : (multi_strategy_ocr results).text = [] := by
      unfold multi_strategy_ocr
      refine foldl_msStep_text_empty _ _ ?_ rfl
      intro p hp data hdata
      exact hyp p.2 ((List.of_mem_zip hp).2) data hdata
    unfold noTextDetected
    rw [htext, show stripWs ([] : List Char) = [] from rfl]
    simp
  · intro results hlen hblank ⟨data, hmem, hpos⟩
    obtain ⟨nm, hzip⟩ := exists_mem_zip strategyNames hmem (by
      simp only [strategyNames, List.length_cons, List.length_nil]
      omega)
    have hscore : evaluate_ocr_result data (mergeText data) ≤
        (multi_strategy_ocr results).score :=
      foldl_msStep_score_ge _ _ hzip
    have hinv := foldl_msStep_inv results (strategyNames.zip results)
      (fun p hp => (List.of_mem_zip hp).2) ⟨none, -1, chars "无", []⟩
      (Or.inl ⟨rfl, rfl⟩)
    rcases hinv with ⟨_, hs⟩ | ⟨bdata, hbmem, hbres, hbtext, hbscore⟩
    · exact absurd (le_trans hscore (le_of_eq hs)) (by omega)
    · have hbpos : 0 < evaluate_ocr_result bdata (mergeText bdata) := by
        rw [← hbscore]
        exact lt_of_lt_of_le hpos hscore
      have hstrip : stripWs (mergeText bdata) ≠ [] := by
        intro hempty
        exact absurd hbpos (not_lt.mpr (hblank _ hbmem bdata rfl hempty))
      unfold noTextDetected multi_strategy_ocr
      rw [hbres, hbtext]
      simp [hstrip]

/-- C4 witness: all-failing strategies report NoTextDetected; a single
positive nonblank strategy does not. -/
theorem claim_C4_witness :
    noTextDetected [none, some ([] : List OcrItem)] = true ∧
    noTextDetected [some [OcrItem.line (chars "x")]] = false := by
  constructor
  · refine claim_C4_amended.1 _ ?_
    intro r hr data hdata
    simp only [List.mem_cons, List.not_mem_nil, or_false, List.mem_singleton] at hr
    rcases hr with rfl | rfl
    · cases hdata
    · obtain rfl : ([] : List OcrItem) = data := Option.some.inj hdata
      exact ⟨fun q hq => absurd hq (List.not_mem_nil q), by decide⟩
  · refine claim_C4_amended.2 _ (by decide) ?_ ?_
    · intro r hr data hdata hstrip
      simp only [List.mem_singleton] at hr
      subst hr
      obtain rfl : [OcrItem.line (chars "x")] = data := Option.some.inj hdata
      exact absurd hstrip (by decide)
    · exact ⟨[OcrItem.line (chars "x")], by simp, by decide⟩

/-- C4 counterexample: a blank-but-scoring strategy (two empty-text
fragments merge to a single space, scoring 4) beats a later strategy that
scores 2 with non-blank text "x"; the request then reports NoTextDetected
even though a strategy scored > 0 with non-blank merged text — refuting
the claim's converse direction. -/
theorem claim_C4_counterexample :
    noTextDetected
      [some [OcrItem.line [], OcrItem.line []],
        some [OcrItem.line (chars "x")]] = true ∧
    0 < evaluate_ocr_result [OcrItem.line (chars "x")]
      (mergeText [OcrItem.line (chars "x")]) ∧
    stripWs (mergeText [OcrItem.line (chars "x")]) ≠ [] := by
  refine ⟨by decide, by decide, by decide⟩

/-! ### C9: preprocessing failure recovery -/

/-- C9 counterexample: in `preprocess_standard`, when the contrast step
succeeds (producing `i + 1`) and the sharpen step fails, the strategy
returns the contrast-enhanced intermediate image, not its input — the
Python variable `image` has already been reassigned when the exception is
caught. -/
theorem claim_C9_counterexample :
    (fun _ : Nat => (Except.error () : Except Unit Nat)) 1 = Except.error () ∧
    preprocess_standard (fun i : Nat => (Except.ok (i + 1) : Except Unit Nat))
      (fun _ => Except.error ()) 0 = 1 ∧
    (1 : Nat) ≠ 0 :=
  ⟨rfl, rfl, by decide⟩

/-- C9 (corrected): no strategy propagates an internal failure (each is a
total function), but only a first-step failure returns the input
unchanged; a later failure returns the last successfully computed
intermediate image.  `binarize` and `adaptive-threshold` never rebind the
`image` variable, so they do return the input unchanged on any internal
failure. -/
theorem claim_C9_amended :
    (∀ (Img E : Type) (c s : Img → Except E Img) (img : Img) (e : E),
      c img = .error e → preprocess_standard c s img = img) ∧
    (∀ (Img E : Type) (c s : Img → Except E Img) (img i1 : Img) (e : E),
      c img = .ok i1 → s i1 = .error e → preprocess_standard c s img = i1) ∧
    (∀ (Img E : Type) (c b s : Img → Except E Img) (img : Img) (e : E),
      c img = .error e → preprocess_high_contrast c b s img = img) ∧
    (∀ (Img E : Type) (d c s : Img → Except E Img) (img : Img) (e : E),
      d img = .error e → preprocess_denoise d c s img = img) ∧
    (∀ (Img E : Type) (d c s : Img → Except E Img) (img i1 : Img) (e : E),
      d img = .ok i1 → c i1 = .error e → preprocess_denoise d c s img = i1) ∧
    (∀ (Img E : Type) (g o r : Img → Except E Img) (img : Img) (e : E),
      binarizeChain g o r img = .error e → preprocess_binarize g o r img = img) ∧
    (∀ (Img E : Type) (g a r : Img → Except E Img) (img : Img) (e : E),
      adaptiveChain g a r img = .error e → preprocess_adaptive g a r img = img) := by
  refine ⟨?_, ?_, ?_, ?_, ?_, ?_, ?_⟩
  · intro Img E c s img e hc
    simp only [preprocess_standard, hc]
  · intro Img E c s img i1 e hc hs
    simp only [preprocess_standard, hc, hs]
  · intro Img E c b s img e hc
    simp only [preprocess_high_contrast, hc]
  · intro Img E d c s img e hd
    simp only [preprocess_denoise, hd]
  · intro Img E d c s img i1 e hd hc
    simp only [preprocess_denoise, hd, hc]
  · intro Img E g o r img e hch
    simp only [preprocess_binarize, hch]
  · intro Img E g a r img e hch
    simp only [preprocess_adaptive, hch]

/-- C9 witness: concrete failing steps over `Img := Nat`. -/
theorem claim_C9_witness :
    preprocess_standard (fun _ : Nat => (Except.error () : Except Unit Nat))
      (fun i => Except.ok i) 7 = 7 ∧
    preprocess_binarize (fun _ : Nat => (Except.error () : Except Unit Nat))
      (fun i => Except.ok i) (fun i => Except.ok i) 7 = 7 :=
  ⟨claim_C9_amended.1 Nat Unit _ _ 7 () rfl,
    claim_C9_amended.2.2.2.2.2.1 Nat Unit _ _ _ 7 () rfl⟩

end LotteryBot
